import Mathlib

/-!
Verification of the expense-tracker application's aggregation and
controller logic, shallowly embedded from the TypeScript source.

Numeric amounts are modelled as exact rationals (`ℚ`); JavaScript `Map`s
(string-keyed, insertion-ordered, updated in place) are modelled as
association lists with an in-place-update operation; `Array.prototype.sort`
(stable per the ECMAScript specification) is modelled by Mathlib's stable
`List.insertionSort`; `slice(-n)` is `drop (length - n)` and `slice(0, n)`
is `take n`.  Calendar keys: the source builds zero-padded string keys
`"YYYY-MM"` / `"YYYY-MM-DD"` and compares them with `localeCompare`; for
fixed-width components this string order coincides with lexicographic
order on the numeric components, which is how keys are modelled here.
-/

namespace ExpenseTracker

/-- Transaction kind, from the `type: 'income' | 'expense'` column. -/
inductive TxKind where
  | income : TxKind
  | expense : TxKind
deriving DecidableEq, Repr

/-- Calendar timestamp of a transaction, reduced to its date components
(the source stores an ISO string; time-of-day never affects the
aggregations modelled here beyond being discarded). -/
structure Date where
  year : Nat
  month : Nat
  day : Nat
deriving DecidableEq, Repr

/-- Transaction row as selected by the screens:
`id, amount, type, date, description, categories(name), subcategories(name)`.
The joined `categories` / `subcategories` objects are reduced to their
`name` field; `none` models a null join result. -/
structure Transaction where
  id : String
  amount : ℚ
  type : TxKind
  date : Date
  description : String
  categories : Option String
  subcategories : Option String
deriving DecidableEq, Repr

/-! ## List Controller and Dashboard Controller totals -/

/-- Code from `transactions-list.tsx`, `getTotalBalance`: a signed fold,
`transactions.reduce((total, t) => t.type === "income" ? total + t.amount
: total - t.amount, 0)`. -/
def getTotalBalance (transactions : List Transaction) : ℚ :=
  transactions.foldl
    (fun total t => if t.type = TxKind.income then total + t.amount else total - t.amount) 0

/-- Code from `transactions-list.tsx` / dashboard `fetchDashboardData`:
`transactions.filter(t => t.type === "income").reduce((sum, t) => sum + t.amount, 0)`. -/
def totalIncomeOf (transactions : List Transaction) : ℚ :=
  (transactions.filter (fun t => t.type = TxKind.income)).foldl (fun sum t => sum + t.amount) 0

/-- Code from `transactions-list.tsx` / dashboard `fetchDashboardData`:
`transactions.filter(t => t.type === "expense").reduce((sum, t) => sum + t.amount, 0)`. -/
def totalExpensesOf (transactions : List Transaction) : ℚ :=
  (transactions.filter (fun t => t.type = TxKind.expense)).foldl (fun sum t => sum + t.amount) 0

/-- Dashboard statistics computed by `fetchDashboardData` (part_000):
income and expense totals, `totalBalance = totalIncome - totalExpenses`,
count, and the first five rows as "recent". -/
structure DashboardStats where
  totalBalance : ℚ
  totalIncome : ℚ
  totalExpenses : ℚ
  transactionCount : Nat
  recentTransactions : List Transaction
deriving Repr

/-- Code from part_000 `fetchDashboardData`, the pure part after the fetch. -/
def fetchDashboardStats (transactions : List Transaction) : DashboardStats :=
  { totalBalance := totalIncomeOf transactions - totalExpensesOf transactions
    totalIncome := totalIncomeOf transactions
    totalExpenses := totalExpensesOf transactions
    transactionCount := transactions.length
    recentTransactions := transactions.take 5 }

/-- Specification-side sum: the plain sum of amounts of transactions of a
given kind, written independently of the code's fold orientation. -/
def sumAmounts (k : TxKind) (transactions : List Transaction) : ℚ :=
  ((transactions.filter (fun t => t.type = k)).map Transaction.amount).sum

/-! ## JavaScript `Map` as an insertion-ordered association list

The aggregation functions all follow the same pattern: a `Map` is grown
by `map.set(key, f(map.get(key) ?? init))` (or the equivalent guarded
`set` followed by in-place mutation of the stored object), then
`Array.from(map.entries())` is traversed in insertion order.  `updMap`
reproduces one such update: an existing key's value is rewritten in
place (keeping its position), and a fresh key is appended at the tail. -/

section MapDefs

variable {K : Type} {V : Type} [DecidableEq K]

/-- One `map.set(k, f(map.get(k) ?? init))` step on the entry list. -/
def updMap (k : K) (init : V) (f : V → V) : List (K × V) → List (K × V)
  | [] => [(k, f init)]
  | (k', v) :: rest =>
      if k' = k then (k', f v) :: rest else (k', v) :: updMap k init f rest

/-- Lookup in the entry list (`map.get`). -/
def lookupMap (k : K) : List (K × V) → Option V
  | [] => none
  | (k', v) :: rest => if k' = k then some v else lookupMap k rest

/-- Whole-loop pattern: `list.forEach(a => map.set(κ(a), upd(a, map.get(κ(a)) ?? init)))`
starting from an empty map. -/
def buildMap (κ : α → K) (init : V) (upd : α → V → V) (l : List α) : List (K × V) :=
  l.foldl (fun m a => updMap (κ a) init (upd a) m) []

end MapDefs

/-! ## Monthly series (`processMonthlyData`, part_001 lines 122-152) -/

/-- Lexicographic order on `(year, month)` pairs; `localeCompare` on the
zero-padded `"YYYY-MM"` keys built by the source induces exactly this
order for fixed-width components. -/
def pairLe (a b : Nat × Nat) : Prop :=
  a.1 < b.1 ∨ (a.1 = b.1 ∧ a.2 ≤ b.2)

instance : DecidableRel pairLe := fun a b => by
  dsimp [pairLe]
  exact inferInstance

/-- Month key of a transaction: `${date.getFullYear()}-${pad(date.getMonth()+1)}`. -/
def monthKey (t : Transaction) : Nat × Nat := (t.date.year, t.date.month)

/-- One loop body of `processMonthlyData`: add the amount to the bucket's
income or expense component according to the transaction type. -/
def monthlyAgg (t : Transaction) (d : ℚ × ℚ) : ℚ × ℚ :=
  if t.type = TxKind.income then (d.1 + t.amount, d.2) else (d.1, d.2 + t.amount)

/-- The `monthlyMap` built by the `forEach` loop of `processMonthlyData`. -/
def monthlyMap (transactions : List Transaction) : List ((Nat × Nat) × ℚ × ℚ) :=
  buildMap monthKey (0, 0) monthlyAgg transactions

/-- Entry order used by `.sort(([a], [b]) => a.localeCompare(b))`. -/
def monthKeyLe (x y : (Nat × Nat) × ℚ × ℚ) : Prop := pairLe x.1 y.1

instance : DecidableRel monthKeyLe := fun x y =>
  inferInstanceAs (Decidable (pairLe x.1 y.1))

instance : IsTotal ((Nat × Nat) × ℚ × ℚ) monthKeyLe :=
  ⟨fun x y => by dsimp [monthKeyLe, pairLe]; omega⟩

instance : IsTrans ((Nat × Nat) × ℚ × ℚ) monthKeyLe :=
  ⟨fun x y z => by dsimp [monthKeyLe, pairLe]; omega⟩

/-- Sorted entry array, before the `slice(-6)`. -/
def monthlySorted (transactions : List Transaction) : List ((Nat × Nat) × ℚ × ℚ) :=
  List.insertionSort monthKeyLe (monthlyMap transactions)

/-- Sorted entry array after `slice(-6)` (the last six months). -/
def monthlyBuckets (transactions : List Transaction) : List ((Nat × Nat) × ℚ × ℚ) :=
  (monthlySorted transactions).drop ((monthlySorted transactions).length - 6)

/-- Short month label produced by
`new Date(month + '-01').toLocaleDateString('en-US', { month: 'short' })`. -/
def monthShort (m : Nat) : String :=
  ["Jan", "Feb", "Mar", "Apr", "May", "Jun",
    "Jul", "Aug", "Sep", "Oct", "Nov", "Dec"].getD (m - 1) "Invalid Date"

/-- Output row of `processMonthlyData`. -/
structure MonthlyData where
  month : String
  income : ℚ
  expense : ℚ
  net : ℚ
deriving DecidableEq, Repr

/-- Code from part_001 `processMonthlyData`: group by month key, sort the
entries by key, keep the last six, project to labelled rows with
`net = income - expense`. -/
def processMonthlyData (transactions : List Transaction) : List MonthlyData :=
  (monthlyBuckets transactions).map
    (fun e => ⟨monthShort e.1.2, e.2.1, e.2.2, e.2.1 - e.2.2⟩)

/-- Specification-side per-month sum of one kind's amounts. -/
def monthSum (k : Nat × Nat) (kind : TxKind) (transactions : List Transaction) : ℚ :=
  ((transactions.filter (fun t => monthKey t = k ∧ t.type = kind)).map
    Transaction.amount).sum

/-! ## Daily series (`processDailyData`, part_001 lines 186-201) -/

/-- Lexicographic order on `(year, month, day)` triples; `localeCompare`
on the `"YYYY-MM-DD"` keys (`t.date.split('T')[0]`) induces exactly this
order for fixed-width components. -/
def tripleLe (a b : Nat × Nat × Nat) : Prop :=
  a.1 < b.1 ∨ (a.1 = b.1 ∧ pairLe a.2 b.2)

instance : DecidableRel tripleLe := fun a b => by
  dsimp [tripleLe, pairLe]
  exact inferInstance

/-- Day key of a transaction: the date part of the ISO timestamp. -/
def dayKey (t : Transaction) : Nat × Nat × Nat :=
  (t.date.year, t.date.month, t.date.day)

/-- The `dailyMap` built by `processDailyData`'s `forEach` loop over the
expense transactions: `dailyMap.set(k, (dailyMap.get(k) || 0) + t.amount)`. -/
def dailyMap (transactions : List Transaction) : List ((Nat × Nat × Nat) × ℚ) :=
  buildMap dayKey 0 (fun t v => v + t.amount)
    (transactions.filter (fun t => t.type = TxKind.expense))

/-- Entry order used by the daily `.sort(([a], [b]) => a.localeCompare(b))`. -/
def dayKeyLe (x y : (Nat × Nat × Nat) × ℚ) : Prop := tripleLe x.1 y.1

instance : DecidableRel dayKeyLe := fun x y =>
  inferInstanceAs (Decidable (tripleLe x.1 y.1))

instance : IsTotal ((Nat × Nat × Nat) × ℚ) dayKeyLe :=
  ⟨fun x y => by dsimp [dayKeyLe, tripleLe, pairLe]; omega⟩

instance : IsTrans ((Nat × Nat × Nat) × ℚ) dayKeyLe :=
  ⟨fun x y z => by dsimp [dayKeyLe, tripleLe, pairLe]; omega⟩

/-- Sorted daily entries, before the `slice(-30)`. -/
def dailySorted (transactions : List Transaction) : List ((Nat × Nat × Nat) × ℚ) :=
  List.insertionSort dayKeyLe (dailyMap transactions)

/-- Output row of `processDailyData`: the date key and the day's total. -/
structure DailyData where
  date : Nat × Nat × Nat
  amount : ℚ
deriving DecidableEq, Repr

/-- Code from part_001 `processDailyData`: filter to expenses, group by
calendar date, sort by key, keep the last 30, project to rows. -/
def processDailyData (transactions : List Transaction) : List DailyData :=
  ((dailySorted transactions).drop ((dailySorted transactions).length - 30)).map
    (fun e => ⟨e.1, e.2⟩)

/-- Specification-side per-day sum of expense amounts. -/
def daySum (k : Nat × Nat × Nat) (transactions : List Transaction) : ℚ :=
  ((transactions.filter (fun t => t.type = TxKind.expense ∧ dayKey t = k)).map
    Transaction.amount).sum

/-! ## Category breakdown (`processCategoryData`, part_001 lines 154-184) -/

/-- Group label of a transaction: `t.categories?.name || 'Uncategorized'`
(a null join or an empty name both fall back to the fixed label). -/
def categoryName (t : Transaction) : String :=
  match t.categories with
  | none => "Uncategorized"
  | some n => if n = "" then "Uncategorized" else n

/-- The `categoryMap` of `processCategoryData`: per category, summed
amount and transaction count over the expense transactions. -/
def categoryMap (transactions : List Transaction) : List (String × ℚ × Nat) :=
  buildMap categoryName (0, 0) (fun t d => (d.1 + t.amount, d.2 + 1))
    (transactions.filter (fun t => t.type = TxKind.expense))

/-- `Array.from(categoryMap.values()).reduce((sum, cat) => sum + cat.amount, 0)`. -/
def totalExpensesCat (transactions : List Transaction) : ℚ :=
  (categoryMap transactions).foldl (fun sum e => sum + e.2.1) 0

/-- Fixed colour palette of the pie chart. -/
def chartColors : List String :=
  ["#FF6B6B", "#4ECDC4", "#45B7D1", "#96CEB4", "#FECA57", "#FF9FF3", "#54A0FF"]

/-- Output row of `processCategoryData`. -/
structure CategorySpending where
  name : String
  amount : ℚ
  percentage : ℚ
  color : String
  count : Nat
deriving DecidableEq, Repr

/-- Pre-sort rows: `.map(([name, data], index) => ({...}))` — the colour
index is the insertion-order position, assigned before sorting. -/
def categoryEntries (transactions : List Transaction) : List CategorySpending :=
  (categoryMap transactions).enum.map (fun p =>
    { name := p.2.1
      amount := p.2.2.1
      percentage :=
        if totalExpensesCat transactions > 0
          then p.2.2.1 / totalExpensesCat transactions * 100 else 0
      color := chartColors.getD (p.1 % chartColors.length) ""
      count := p.2.2.2 })

/-- Comparator of `.sort((a, b) => b.amount - a.amount)`: descending by
amount; as a stable-sort order, ties keep first-encountered order. -/
def catDescLe (a b : CategorySpending) : Prop := b.amount ≤ a.amount

instance : DecidableRel catDescLe := fun a b =>
  inferInstanceAs (Decidable (b.amount ≤ a.amount))

instance : IsTotal CategorySpending catDescLe := ⟨fun a b => le_total b.amount a.amount⟩

instance : IsTrans CategorySpending catDescLe :=
  ⟨fun _ _ _ h h' => le_trans h' h⟩

/-- Code from part_001 `processCategoryData`: group, annotate with
percentage of total and colour, sort descending by amount, keep the top 7. -/
def processCategoryData (transactions : List Transaction) : List CategorySpending :=
  (List.insertionSort catDescLe (categoryEntries transactions)).take 7

/-- The claim C2 as stated is false: with eight equal expense categories
the produced breakdown keeps only seven rows, whose percentages sum to
87.5, not 100. -/
def demoTx (i : Nat) (c : String) : Transaction :=
  { id := c
    amount := 1
    type := TxKind.expense
    date := ⟨2024, 1, i⟩
    description := "d"
    categories := some c
    subcategories := none }

def demo8 : List Transaction :=
  [demoTx 1 "C1", demoTx 2 "C2", demoTx 3 "C3", demoTx 4 "C4",
   demoTx 5 "C5", demoTx 6 "C6", demoTx 7 "C7", demoTx 8 "C8"]

/-- Witness: the specification's own example (income 1000, two Food
expenses 300 and 200) yields a single group whose percentage sums to 100. -/
def exampleFood : List Transaction :=
  [{ id := "1", amount := 1000, type := TxKind.income, date := ⟨2024, 1, 1⟩,
     description := "salary", categories := some "Salary", subcategories := none },
   { id := "2", amount := 300, type := TxKind.expense, date := ⟨2024, 1, 2⟩,
     description := "groceries", categories := some "Food", subcategories := none },
   { id := "3", amount := 200, type := TxKind.expense, date := ⟨2024, 1, 3⟩,
     description := "dinner", categories := some "Food", subcategories := none }]

/-! ## Summary statistics (`calculateTotalStats`, part_001 lines 203-226) -/

/-- Time-period selector of the analytics screen. -/
inductive TimePeriod where
  | d7 : TimePeriod
  | d30 : TimePeriod
  | d90 : TimePeriod
  | y1 : TimePeriod
  | all : TimePeriod
deriving DecidableEq, Repr

/-- Day count used for the daily average:
`timePeriod === '7days' ? 7 : ... : Math.max(1, transactions.length)`. -/
def periodDays (p : TimePeriod) (transactions : List Transaction) : Nat :=
  match p with
  | .d7 => 7
  | .d30 => 30
  | .d90 => 90
  | .y1 => 365
  | .all => max 1 transactions.length

/-- The per-category expense totals built by `calculateTotalStats`:
`categoryMap.set(category, (categoryMap.get(category) || 0) + t.amount)`
over the expense transactions. -/
def statsCategoryMap (transactions : List Transaction) : List (String × ℚ) :=
  buildMap categoryName 0 (fun t v => v + t.amount)
    (transactions.filter (fun t => t.type = TxKind.expense))

/-- Comparator of `.sort(([,a], [,b]) => b - a)`: descending by value,
stable on ties. -/
def statDescLe (a b : String × ℚ) : Prop := b.2 ≤ a.2

instance : DecidableRel statDescLe := fun a b =>
  inferInstanceAs (Decidable (b.2 ≤ a.2))

instance : IsTotal (String × ℚ) statDescLe := ⟨fun a b => le_total b.2 a.2⟩

instance : IsTrans (String × ℚ) statDescLe := ⟨fun _ _ _ h h' => le_trans h' h⟩

/-- `Array.from(categoryMap.entries()).sort(([,a],[,b]) => b - a)[0]?.[0] || 'None'`. -/
def topCategoryOf (transactions : List Transaction) : String :=
  match List.insertionSort statDescLe (statsCategoryMap transactions) with
  | [] => "None"
  | e :: _ => if e.1 = "" then "None" else e.1

/-- Result record of `calculateTotalStats`. -/
structure TotalStats where
  totalIncome : ℚ
  totalExpenses : ℚ
  avgDaily : ℚ
  transactionCount : Nat
  topCategory : String
  savingsRate : ℚ
deriving Repr

/-- Code from part_001 `calculateTotalStats`. -/
def calculateTotalStats (p : TimePeriod) (transactions : List Transaction) : TotalStats :=
  { totalIncome := totalIncomeOf transactions
    totalExpenses := totalExpensesOf transactions
    avgDaily := totalExpensesOf transactions / (periodDays p transactions : ℚ)
    transactionCount := transactions.length
    topCategory := topCategoryOf transactions
    savingsRate :=
      if totalIncomeOf transactions > 0
        then (totalIncomeOf transactions - totalExpensesOf transactions)
              / totalIncomeOf transactions * 100
        else 0 }

/-! ## Form Controller (`add-transaction.tsx`) -/

/-- Numeric value of a digit string (most significant first). -/
def digitsVal (ds : List Char) : Nat :=
  ds.foldl (fun n c => n * 10 + (c.toNat - Char.toNat '0')) 0

/-- Sign handling of the JavaScript `parseFloat` builtin. -/
def parseSign : List Char → ℚ × List Char
  | '-' :: rest => (-1, rest)
  | '+' :: rest => (1, rest)
  | cs => (1, cs)

/-- Model of the JavaScript `parseFloat` builtin on its common subset:
optional leading whitespace, optional sign, decimal digits with an
optional fraction part, trailing characters ignored; `none` models `NaN`
(no digits at all).  Exponent notation and the `Infinity` literals are
outside the modelled subset. -/
def parseFloat (s : String) : Option ℚ :=
  let cs := s.data.dropWhile Char.isWhitespace
  let sc := parseSign cs
  let intDigits := sc.2.takeWhile Char.isDigit
  let rest := sc.2.dropWhile Char.isDigit
  let fracDigits :=
    match rest with
    | '.' :: r => r.takeWhile Char.isDigit
    | _ => []
  if intDigits = [] ∧ fracDigits = [] then none
  else some (sc.1 * ((digitsVal intDigits : ℚ)
      + (digitsVal fracDigits : ℚ) / (10 : ℚ) ^ fracDigits.length))

/-- Model of the JavaScript `String.prototype.trim` builtin: strip
leading and trailing whitespace. -/
def jsTrim (s : String) : String :=
  ⟨((s.data.dropWhile Char.isWhitespace).reverse.dropWhile Char.isWhitespace).reverse⟩

/-- Form state relevant to validation and submission. -/
structure FormData where
  amount : String
  description : String
  type : TxKind
  date : Date
  selectedCategory : String
  selectedSubcategory : String
  isEditMode : Bool
  transactionId : String
deriving DecidableEq, Repr

/-- Code from `add-transaction.tsx` `validateForm`, lines 179-201: the
first failing check's alert message, or `none` when the form is valid.
(`!amount` is subsumed by `parseFloat "" = none`.) -/
def validateForm (f : FormData) : Option String :=
  match parseFloat f.amount with
  | none => some "Please enter a valid amount"
  | some a =>
    if a ≤ 0 then some "Amount must be greater than 0"
    else if f.selectedCategory = "" then some "Please select a category"
    else if jsTrim f.description = "" then some "Please enter a description"
    else none

/-- Record submitted to the remote store (`transactionData`,
lines 211-218). -/
structure TransactionData where
  amount : ℚ
  description : String
  type : TxKind
  date : Date
  category_id : String
  subcategory_id : Option String
deriving DecidableEq, Repr

/-- Remote write issued by `handleSubmit`: insert in create mode, update
by id in edit mode. -/
inductive Request where
  | insert (d : TransactionData) : Request
  | update (id : String) (d : TransactionData) : Request
deriving DecidableEq, Repr

/-- Record carried by a request. -/
def Request.payload : Request → TransactionData
  | .insert d => d
  | .update _ d => d

/-- Code from `add-transaction.tsx` `handleSubmit`, lines 203-235: the
remote call made for a submission, `none` when validation rejects it
(no network call). -/
def handleSubmit (f : FormData) : Option Request :=
  match validateForm f with
  | some _ => none
  | none =>
    let d : TransactionData :=
      { amount := (parseFloat f.amount).getD 0
        description := jsTrim f.description
        type := f.type
        date := f.date
        category_id := f.selectedCategory
        subcategory_id :=
          if f.selectedSubcategory = "" then none else some f.selectedSubcategory }
    some (if f.isEditMode then Request.update f.transactionId d else Request.insert d)

/-- Witness for C8: the specification's `"-5"` example is rejected with
no network call. -/
def demoForm : FormData :=
  { amount := "-5"
    description := "lunch"
    type := TxKind.expense
    date := ⟨2024, 1, 1⟩
    selectedCategory := "cat1"
    selectedSubcategory := ""
    isEditMode := false
    transactionId := "" }

/-! ## List Controller delete (`transactions-list.tsx`, lines 74-104) -/

/-- Outcome of a confirmed delete: the remote delete request (always
issued, keyed by id) and the resulting local list. -/
structure DeleteOutcome where
  requestedId : String
  newList : List Transaction
deriving Repr

/-- Code from `deleteTransaction`: issue the remote delete; on error keep
the local list unchanged, on success remove the row from local state. -/
def deleteTransaction (transactions : List Transaction) (id : String)
    (remoteError : Bool) : DeleteOutcome :=
  { requestedId := id
    newList :=
      if remoteError then transactions
      else transactions.filter (fun t => t.id ≠ id) }

/-! ## Form Controller category/subcategory dependency
(`add-transaction.tsx`, lines 148-176)

The relevant screen state is `selectedCategory`, the fetched
`subcategories` list, and `selectedSubcategory`.  Selecting a category
fires the `useEffect`: a non-empty category re-fetches its children
(modelled by an event carrying the fetched rows, each of which the remote
filter `.eq("category_id", categoryId)` guarantees belongs to that
category; a fetch error yields `[]`), while clearing the category resets
both the list and the selected subcategory.  Selecting a subcategory is
only possible through the picker, whose items are the empty sentinel and
the currently listed rows. -/

/-- Subcategory row as selected by `fetchSubcategories`. -/
structure Subcategory where
  id : String
  name : String
  category_id : String
deriving DecidableEq, Repr

/-- Form Controller state relevant to the dependency. -/
structure SubcatState where
  selectedCategory : String
  subcategories : List Subcategory
  selectedSubcategory : String
deriving DecidableEq, Repr

/-- User-driven events of the dependency. -/
inductive FormEvent where
  | setCategory (c : String) (fetched : List Subcategory) : FormEvent
  | setSubcategory (s : String) : FormEvent
deriving DecidableEq, Repr

/-- Code of the `onValueChange` handlers plus the `[selectedCategory]`
`useEffect` (lines 169-176): a non-empty category stores the fetched
list, an empty one clears the list and the selection; selecting a
subcategory stores it.  Note the non-empty branch does not touch
`selectedSubcategory`. -/
def formStep (st : SubcatState) : FormEvent → SubcatState
  | .setCategory c fetched =>
      if c = "" then { selectedCategory := c, subcategories := [], selectedSubcategory := "" }
      else { st with selectedCategory := c, subcategories := fetched }
  | .setSubcategory s => { st with selectedSubcategory := s }

/-- Environment guarantees on an event: fetched rows belong to the
selected category (the remote query filters on `category_id`), and the
subcategory picker only offers the empty sentinel and listed rows. -/
def eventOk (st : SubcatState) : FormEvent → Prop
  | .setCategory c fetched => ∀ sub ∈ fetched, sub.category_id = c
  | .setSubcategory s => s = "" ∨ ∃ sub ∈ st.subcategories, sub.id = s

/-- Fresh-form state. -/
def initState : SubcatState :=
  { selectedCategory := "", subcategories := [], selectedSubcategory := "" }

/-- States the Form Controller can reach through well-formed events. -/
inductive Reachable : SubcatState → Prop where
  | init : Reachable initState
  | step {st : SubcatState} {e : FormEvent} (h : Reachable st) (he : eventOk st e) :
      Reachable (formStep st e)

def subA : Subcategory := { id := "a1", name := "SubA", category_id := "A" }

def subB : Subcategory := { id := "b1", name := "SubB", category_id := "B" }

/-- State after: select category "A", select its subcategory "a1", then
switch to category "B" (whose children load). -/
def staleState : SubcatState :=
  { selectedCategory := "B", subcategories := [subB], selectedSubcategory := "a1" }

/-! ## Lemmas and claim theorems -/

theorem foldl_add_amount (l : List Transaction) (a : ℚ) :
    l.foldl (fun sum t => sum + t.amount) a = a + (l.map Transaction.amount).sum := by
  induction l generalizing a with
  | nil => simp
  | cons t l ih => simp [ih, add_assoc]

theorem totalIncomeOf_eq (l : List Transaction) :
    totalIncomeOf l = sumAmounts TxKind.income l := by
  simp [totalIncomeOf, sumAmounts, foldl_add_amount]

theorem totalExpensesOf_eq (l : List Transaction) :
    totalExpensesOf l = sumAmounts TxKind.expense l := by
  simp [totalExpensesOf, sumAmounts, foldl_add_amount]

theorem getTotalBalance_aux (l : List Transaction) (a : ℚ) :
    l.foldl
      (fun total t => if t.type = TxKind.income then total + t.amount else total - t.amount) a
      = a + sumAmounts TxKind.income l - sumAmounts TxKind.expense l := by
  induction l generalizing a with
  | nil => simp [sumAmounts]
  | cons t l ih =>
    rcases ht : t.type with _ | _ <;>
      simp [List.foldl_cons, ih, sumAmounts, List.filter_cons, ht] <;> ring

/-- The claim C1: both balance computations agree with the exact
income-minus-expense difference. -/
theorem C1_balance (transactions : List Transaction) :
    getTotalBalance transactions
        = sumAmounts TxKind.income transactions - sumAmounts TxKind.expense transactions
      ∧ (fetchDashboardStats transactions).totalBalance
        = sumAmounts TxKind.income transactions - sumAmounts TxKind.expense transactions := by
  constructor
  · simpa [getTotalBalance] using getTotalBalance_aux transactions 0
  · simp [fetchDashboardStats, totalIncomeOf_eq, totalExpensesOf_eq]

section MapLemmas

variable {K : Type} {V : Type} [DecidableEq K]

theorem lookupMap_updMap_self (k : K) (init : V) (f : V → V) (m : List (K × V)) :
    lookupMap k (updMap k init f m) = some (f ((lookupMap k m).getD init)) := by
  induction m with
  | nil => simp [updMap, lookupMap]
  | cons e rest ih =>
    obtain ⟨k', v⟩ := e
    by_cases h : k' = k <;> simp [updMap, lookupMap, h, ih]

theorem lookupMap_updMap_ne {k k' : K} (hne : k' ≠ k) (init : V) (f : V → V)
    (m : List (K × V)) : lookupMap k' (updMap k init f m) = lookupMap k' m := by
  induction m with
  | nil => simp [updMap, lookupMap, Ne.symm hne]
  | cons e rest ih =>
    obtain ⟨k'', v⟩ := e
    by_cases h : k'' = k
    · subst h
      simp [updMap, lookupMap, Ne.symm hne]
    · by_cases h' : k'' = k'
      · subst h'
        simp [updMap, lookupMap, h]
      · simp [updMap, lookupMap, h, h', ih]

theorem keys_updMap (k : K) (init : V) (f : V → V) (m : List (K × V)) :
    (updMap k init f m).map Prod.fst
      = if k ∈ m.map Prod.fst then m.map Prod.fst else m.map Prod.fst ++ [k] := by
  induction m with
  | nil => simp [updMap]
  | cons e rest ih =>
    obtain ⟨k', v⟩ := e
    by_cases h : k' = k
    · subst h
      simp [updMap]
    · simp only [updMap, if_neg h, List.map_cons, ih]
      by_cases hm : k ∈ rest.map Prod.fst <;> simp [hm, Ne.symm h]

theorem mem_keys_updMap {a : K} (k : K) (init : V) (f : V → V) (m : List (K × V)) :
    a ∈ (updMap k init f m).map Prod.fst ↔ a = k ∨ a ∈ m.map Prod.fst := by
  rw [keys_updMap]
  by_cases hm : k ∈ m.map Prod.fst
  · simp only [if_pos hm]
    constructor
    · exact Or.inr
    · rintro (rfl | h)
      · exact hm
      · exact h
  · simp [if_neg hm, or_comm]

theorem nodup_keys_updMap (k : K) (init : V) (f : V → V) (m : List (K × V))
    (h : (m.map Prod.fst).Nodup) : ((updMap k init f m).map Prod.fst).Nodup := by
  rw [keys_updMap]
  by_cases hm : k ∈ m.map Prod.fst
  · simpa [hm] using h
  · simpa [hm] using List.Nodup.append h (List.nodup_singleton k) (by simpa using hm)

theorem lookupMap_eq_some_of_mem {k : K} {v : V} {m : List (K × V)}
    (hnd : (m.map Prod.fst).Nodup) (hm : (k, v) ∈ m) : lookupMap k m = some v := by
  induction m with
  | nil => simp at hm
  | cons e rest ih =>
    obtain ⟨k', v'⟩ := e
    simp only [List.map_cons, List.nodup_cons] at hnd
    rcases List.mem_cons.mp hm with h | h
    · obtain ⟨rfl, rfl⟩ : k' = k ∧ v' = v := by
        have := congrArg Prod.fst h.symm
        have := congrArg Prod.snd h.symm
        exact ⟨by assumption, by assumption⟩
      simp [lookupMap]
    · have hk : k' ≠ k := by
        rintro rfl
        exact hnd.1 (List.mem_map.mpr ⟨(k', v), h, rfl⟩)
      simp [lookupMap, hk, ih hnd.2 h]

theorem mem_of_lookupMap_eq_some {k : K} {v : V} {m : List (K × V)}
    (h : lookupMap k m = some v) : (k, v) ∈ m := by
  induction m with
  | nil => simp [lookupMap] at h
  | cons e rest ih =>
    obtain ⟨k', v'⟩ := e
    simp only [lookupMap] at h
    split at h
    · next heq =>
        injection h with h
        rw [← heq, ← h]
        exact List.mem_cons_self _ _
    · exact List.mem_cons_of_mem _ (ih h)

theorem buildMap_append (κ : α → K) (init : V) (upd : α → V → V) (l : List α) (a : α) :
    buildMap κ init upd (l ++ [a])
      = updMap (κ a) init (upd a) (buildMap κ init upd l) := by
  simp [buildMap, List.foldl_append]

theorem nodup_keys_buildMap (κ : α → K) (init : V) (upd : α → V → V) (l : List α) :
    ((buildMap κ init upd l).map Prod.fst).Nodup := by
  induction l using List.reverseRecOn with
  | nil => simp [buildMap]
  | append_singleton l a ih =>
    rw [buildMap_append]
    exact nodup_keys_updMap _ _ _ _ ih

theorem mem_keys_buildMap (κ : α → K) (init : V) (upd : α → V → V) (l : List α) (k : K) :
    k ∈ (buildMap κ init upd l).map Prod.fst ↔ ∃ a ∈ l, κ a = k := by
  induction l using List.reverseRecOn with
  | nil => simp [buildMap]
  | append_singleton l a ih =>
    rw [buildMap_append, mem_keys_updMap, ih]
    constructor
    · rintro (rfl | ⟨b, hb, rfl⟩)
      · exact ⟨a, by simp, rfl⟩
      · exact ⟨b, by simp [hb], rfl⟩
    · rintro ⟨b, hb, rfl⟩
      rcases List.mem_append.mp hb with hb | hb
      · exact Or.inr ⟨b, hb, rfl⟩
      · simp only [List.mem_singleton] at hb
        subst hb
        exact Or.inl rfl

theorem lookupMap_buildMap (κ : α → K) (init : V) (upd : α → V → V) (l : List α) (k : K) :
    (lookupMap k (buildMap κ init upd l)).getD init
      = (l.filter (fun a => κ a = k)).foldl (fun v a => upd a v) init := by
  induction l using List.reverseRecOn with
  | nil => simp [buildMap, lookupMap]
  | append_singleton l a ih =>
    rw [buildMap_append]
    by_cases h : κ a = k
    · subst h
      rw [lookupMap_updMap_self]
      simp [List.filter_append, List.foldl_append, ih]
    · rw [lookupMap_updMap_ne (fun he => h he.symm)]
      simp [List.filter_append, List.foldl_append, ih, h]

theorem value_buildMap {κ : α → K} {init : V} {upd : α → V → V} {l : List α}
    {k : K} {v : V} (hm : (k, v) ∈ buildMap κ init upd l) :
    v = (l.filter (fun a => κ a = k)).foldl (fun v a => upd a v) init := by
  have h := lookupMap_eq_some_of_mem (nodup_keys_buildMap κ init upd l) hm
  have := lookupMap_buildMap κ init upd l k
  rw [h] at this
  simpa using this

theorem key_mem_of_mem_buildMap {κ : α → K} {init : V} {upd : α → V → V} {l : List α}
    {k : K} {v : V} (hm : (k, v) ∈ buildMap κ init upd l) : ∃ a ∈ l, κ a = k := by
  exact (mem_keys_buildMap κ init upd l k).mp (List.mem_map.mpr ⟨(k, v), hm, rfl⟩)

end MapLemmas

theorem foldl_monthlyAgg (l : List Transaction) (d : ℚ × ℚ) :
    l.foldl (fun v t => monthlyAgg t v) d
      = (d.1 + sumAmounts TxKind.income l, d.2 + sumAmounts TxKind.expense l) := by
  induction l generalizing d with
  | nil => simp [sumAmounts]
  | cons t l ih =>
    rw [List.foldl_cons, ih]
    rcases ht : t.type with _ | _ <;>
      simp [monthlyAgg, ht, sumAmounts, List.filter_cons, Prod.ext_iff] <;> ring

theorem sumAmounts_filter_monthKey (k : Nat × Nat) (kind : TxKind)
    (transactions : List Transaction) :
    sumAmounts kind (transactions.filter (fun t => monthKey t = k))
      = monthSum k kind transactions := by
  simp only [sumAmounts, monthSum, List.filter_filter]
  congr 1
  congr 1
  apply List.filter_congr
  intro t _
  simp [and_comm]

theorem monthlyMap_value {k : Nat × Nat} {v : ℚ × ℚ} {transactions : List Transaction}
    (hm : (k, v) ∈ monthlyMap transactions) :
    v = (monthSum k TxKind.income transactions, monthSum k TxKind.expense transactions) := by
  have := value_buildMap hm
  rw [foldl_monthlyAgg] at this
  simpa [sumAmounts_filter_monthKey] using this

theorem monthlySorted_value {e : (Nat × Nat) × ℚ × ℚ} {transactions : List Transaction}
    (hm : e ∈ monthlySorted transactions) :
    e.2 = (monthSum e.1 TxKind.income transactions, monthSum e.1 TxKind.expense transactions) := by
  have : e ∈ monthlyMap transactions :=
    (List.perm_insertionSort monthKeyLe (monthlyMap transactions)).subset hm
  exact monthlyMap_value (by simpa using this)

theorem monthlySorted_sorted (transactions : List Transaction) :
    List.Sorted monthKeyLe (monthlySorted transactions) :=
  List.sorted_insertionSort monthKeyLe (monthlyMap transactions)

theorem monthlyBuckets_sublist (transactions : List Transaction) :
    List.Sublist (monthlyBuckets transactions) (monthlySorted transactions) :=
  List.drop_sublist _ _

/-- The claim C4: the monthly series has at most six entries; its
underlying buckets are sorted ascending by `(year, month)` key with
duplicate-free keys; each bucket's components are the per-month income and
expense sums with `net = income - expense`; every month occurring in the
input appears in the pre-truncation bucket list; and every bucket dropped
by the truncation is no later than every kept bucket. -/
theorem C4_monthly (transactions : List Transaction) :
    (processMonthlyData transactions).length ≤ 6
      ∧ processMonthlyData transactions
          = (monthlyBuckets transactions).map
              (fun e => ⟨monthShort e.1.2, e.2.1, e.2.2, e.2.1 - e.2.2⟩)
      ∧ List.Sorted monthKeyLe (monthlyBuckets transactions)
      ∧ ((monthlyBuckets transactions).map Prod.fst).Nodup
      ∧ (∀ e ∈ monthlyBuckets transactions,
          e.2.1 = monthSum e.1 TxKind.income transactions
            ∧ e.2.2 = monthSum e.1 TxKind.expense transactions)
      ∧ (∀ d ∈ processMonthlyData transactions, d.net = d.income - d.expense)
      ∧ (∀ t ∈ transactions, ∃ e ∈ monthlySorted transactions, e.1 = monthKey t)
      ∧ (∀ x ∈ monthlySorted transactions, x ∉ monthlyBuckets transactions →
          ∀ y ∈ monthlyBuckets transactions, monthKeyLe x y) := by
  refine ⟨?_, rfl, ?_, ?_, ?_, ?_, ?_, ?_⟩
  · simp only [processMonthlyData, List.length_map, monthlyBuckets, List.length_drop]
    omega
  · exact (monthlySorted_sorted transactions).sublist (monthlyBuckets_sublist transactions)
  · have h1 : ((monthlyMap transactions).map Prod.fst).Nodup :=
      nodup_keys_buildMap _ _ _ _
    have h2 : ((monthlySorted transactions).map Prod.fst).Nodup :=
      (((List.perm_insertionSort monthKeyLe (monthlyMap transactions)).map
        Prod.fst).nodup_iff).mpr h1
    exact ((monthlyBuckets_sublist transactions).map Prod.fst).nodup h2
  · intro e he
    have := monthlySorted_value ((monthlyBuckets_sublist transactions).subset he)
    exact ⟨by rw [this], by rw [this]⟩
  · intro d hd
    simp only [processMonthlyData, List.mem_map] at hd
    obtain ⟨e, _, rfl⟩ := hd
    rfl
  · intro t ht
    have : monthKey t ∈ (monthlyMap transactions).map Prod.fst :=
      (mem_keys_buildMap _ _ _ _ _).mpr ⟨t, ht, rfl⟩
    have : monthKey t ∈ (monthlySorted transactions).map Prod.fst :=
      ((List.perm_insertionSort monthKeyLe (monthlyMap transactions)).map
        Prod.fst).mem_iff.mpr this
    obtain ⟨e, he, hk⟩ := List.mem_map.mp this
    exact ⟨e, he, hk⟩
  · intro x hx hnx y hy
    rw [monthlyBuckets] at hnx hy
    have hxt : x ∈ (monthlySorted transactions).take
        ((monthlySorted transactions).length - 6) := by
      have hmem : x ∈ (monthlySorted transactions).take
            ((monthlySorted transactions).length - 6)
          ++ (monthlySorted transactions).drop
            ((monthlySorted transactions).length - 6) := by
        rw [List.take_append_drop]
        exact hx
      rcases List.mem_append.mp hmem with h | h
      · exact h
      · exact absurd h hnx
    exact (monthlySorted_sorted transactions).rel_of_mem_take_of_mem_drop hxt hy

theorem foldl_add_amount' (l : List Transaction) (a : ℚ) :
    l.foldl (fun v t => v + t.amount) a = a + (l.map Transaction.amount).sum := by
  induction l generalizing a with
  | nil => simp
  | cons t l ih => simp [ih, add_assoc]

theorem dailyMap_value {k : Nat × Nat × Nat} {v : ℚ} {transactions : List Transaction}
    (hm : (k, v) ∈ dailyMap transactions) : v = daySum k transactions := by
  have h := value_buildMap hm
  rw [foldl_add_amount'] at h
  rw [h, daySum, List.filter_filter]
  simp only [zero_add]
  congr 1
  congr 1
  apply List.filter_congr
  intro t _
  by_cases h1 : dayKey t = k <;> by_cases h2 : t.type = TxKind.expense <;> simp [h1, h2]

theorem dailySorted_sorted (transactions : List Transaction) :
    List.Sorted dayKeyLe (dailySorted transactions) :=
  List.sorted_insertionSort dayKeyLe (dailyMap transactions)

theorem dailySorted_mem_iff {e : (Nat × Nat × Nat) × ℚ} {transactions : List Transaction} :
    e ∈ dailySorted transactions ↔ e ∈ dailyMap transactions :=
  (List.perm_insertionSort dayKeyLe (dailyMap transactions)).mem_iff

/-- The claim C5: the daily series has at most 30 entries, is sorted
ascending by calendar date with duplicate-free dates, every entry's
amount is that day's expense sum, every entry's date is the date of some
expense transaction of the input, every expense transaction's date
appears in the pre-truncation list, and every dropped day is no later
than every kept day. -/
theorem C5_daily (transactions : List Transaction) :
    (processDailyData transactions).length ≤ 30
      ∧ List.Pairwise (fun a b : DailyData => tripleLe a.date b.date)
          (processDailyData transactions)
      ∧ ((processDailyData transactions).map DailyData.date).Nodup
      ∧ (∀ d ∈ processDailyData transactions, d.amount = daySum d.date transactions)
      ∧ (∀ d ∈ processDailyData transactions,
          ∃ t ∈ transactions, t.type = TxKind.expense ∧ dayKey t = d.date)
      ∧ (∀ t ∈ transactions, t.type = TxKind.expense →
          ∃ e ∈ dailySorted transactions, e.1 = dayKey t)
      ∧ (∀ x ∈ dailySorted transactions,
          x ∉ (dailySorted transactions).drop ((dailySorted transactions).length - 30) →
          ∀ y ∈ (dailySorted transactions).drop ((dailySorted transactions).length - 30),
            dayKeyLe x y) := by
  have hdrop : List.Sublist
      ((dailySorted transactions).drop ((dailySorted transactions).length - 30))
      (dailySorted transactions) := List.drop_sublist _ _
  refine ⟨?_, ?_, ?_, ?_, ?_, ?_, ?_⟩
  · simp only [processDailyData, List.length_map, List.length_drop]
    omega
  · have h : List.Pairwise dayKeyLe
        ((dailySorted transactions).drop ((dailySorted transactions).length - 30)) :=
      (dailySorted_sorted transactions).sublist hdrop
    rw [processDailyData, List.pairwise_map]
    exact h
  · have h1 : ((dailyMap transactions).map Prod.fst).Nodup :=
      nodup_keys_buildMap _ _ _ _
    have h2 : ((dailySorted transactions).map Prod.fst).Nodup :=
      ((List.perm_insertionSort dayKeyLe (dailyMap transactions)).map
        Prod.fst).nodup_iff.mpr h1
    have h3 := (hdrop.map Prod.fst).nodup h2
    simpa [processDailyData, List.map_map, Function.comp] using h3
  · intro d hd
    simp only [processDailyData, List.mem_map] at hd
    obtain ⟨e, he, rfl⟩ := hd
    exact dailyMap_value (dailySorted_mem_iff.mp (hdrop.subset he))
  · intro d hd
    simp only [processDailyData, List.mem_map] at hd
    obtain ⟨e, he, rfl⟩ := hd
    have := key_mem_of_mem_buildMap (dailySorted_mem_iff.mp (hdrop.subset he))
    obtain ⟨t, ht, hk⟩ := this
    rw [List.mem_filter] at ht
    exact ⟨t, ht.1, by simpa using ht.2, hk⟩
  · intro t ht hexp
    have hmem : dayKey t ∈ (dailyMap transactions).map Prod.fst :=
      (mem_keys_buildMap _ _ _ _ _).mpr
        ⟨t, List.mem_filter.mpr ⟨ht, by simpa using hexp⟩, rfl⟩
    have : dayKey t ∈ (dailySorted transactions).map Prod.fst :=
      ((List.perm_insertionSort dayKeyLe (dailyMap transactions)).map
        Prod.fst).mem_iff.mpr hmem
    obtain ⟨e, he, hk⟩ := List.mem_map.mp this
    exact ⟨e, he, hk⟩
  · intro x hx hnx y hy
    have hxt : x ∈ (dailySorted transactions).take
        ((dailySorted transactions).length - 30) := by
      have hmem : x ∈ (dailySorted transactions).take
            ((dailySorted transactions).length - 30)
          ++ (dailySorted transactions).drop ((dailySorted transactions).length - 30) := by
        rw [List.take_append_drop]
        exact hx
      rcases List.mem_append.mp hmem with h | h
      · exact h
      · exact absurd h hnx
    exact (dailySorted_sorted transactions).rel_of_mem_take_of_mem_drop hxt hy

theorem foldl_add_q {α : Type} (f : α → ℚ) (l : List α) (a : ℚ) :
    l.foldl (fun s x => s + f x) a = a + (l.map f).sum := by
  induction l generalizing a with
  | nil => simp
  | cons x l ih => simp [ih, add_assoc]

theorem totalExpensesCat_eq_sum_values (transactions : List Transaction) :
    totalExpensesCat transactions = ((categoryMap transactions).map (fun e => e.2.1)).sum := by
  simp [totalExpensesCat, foldl_add_q]

theorem sum_values_updMap_add {K : Type} [DecidableEq K] (k : K) (amt : ℚ)
    (m : List (K × ℚ × Nat)) :
    ((updMap k (0, 0) (fun d => (d.1 + amt, d.2 + 1)) m).map (fun e => e.2.1)).sum
      = (m.map (fun e => e.2.1)).sum + amt := by
  induction m with
  | nil => simp [updMap]
  | cons e rest ih =>
    obtain ⟨k', v⟩ := e
    by_cases h : k' = k
    · subst h
      have hstep : updMap k' (0, 0) (fun d => (d.1 + amt, d.2 + 1)) ((k', v) :: rest)
          = (k', v.1 + amt, v.2 + 1) :: rest := by
        simp [updMap]
      rw [hstep]
      simp only [List.map_cons, List.sum_cons]
      ring
    · have hstep : updMap k (0, 0) (fun d => (d.1 + amt, d.2 + 1)) ((k', v) :: rest)
          = (k', v) :: updMap k (0, 0) (fun d => (d.1 + amt, d.2 + 1)) rest := by
        simp [updMap, h]
      rw [hstep]
      simp only [List.map_cons, List.sum_cons]
      rw [ih]
      ring

/-- The code's total (summed over group values) equals the plain sum of
expense amounts. -/
theorem totalExpensesCat_eq (transactions : List Transaction) :
    totalExpensesCat transactions = sumAmounts TxKind.expense transactions := by
  rw [totalExpensesCat_eq_sum_values]
  induction transactions using List.reverseRecOn with
  | nil => simp [categoryMap, buildMap, sumAmounts]
  | append_singleton l t ih =>
    rcases ht : t.type with _ | _
    · have : categoryMap (l ++ [t]) = categoryMap l := by
        simp [categoryMap, List.filter_append, ht]
      rw [this, ih]
      simp [sumAmounts, List.filter_append, ht]
    · have : categoryMap (l ++ [t])
          = updMap (categoryName t) (0, 0) (fun d => (d.1 + t.amount, d.2 + 1))
              (categoryMap l) := by
        simp [categoryMap, List.filter_append, ht, buildMap, List.foldl_append]
      rw [this, sum_values_updMap_add, ih]
      simp [sumAmounts, List.filter_append, ht]

theorem enumFrom_map_snd {α β : Type} (g : α → β) :
    ∀ (n : Nat) (l : List α), (List.enumFrom n l).map (fun p => g p.2) = l.map g
  | _, [] => rfl
  | n, a :: l => by simp [List.enumFrom, enumFrom_map_snd g (n + 1) l]

theorem categoryEntries_length (transactions : List Transaction) :
    (categoryEntries transactions).length = (categoryMap transactions).length := by
  simp [categoryEntries]

theorem map_percentage_categoryEntries (transactions : List Transaction) :
    (categoryEntries transactions).map CategorySpending.percentage
      = (categoryMap transactions).map
          (fun e => if totalExpensesCat transactions > 0
            then e.2.1 / totalExpensesCat transactions * 100 else 0) := by
  rw [categoryEntries, List.map_map, List.enum]
  exact enumFrom_map_snd
    (fun e : String × ℚ × Nat =>
      if totalExpensesCat transactions > 0
        then e.2.1 / totalExpensesCat transactions * 100 else 0)
    0 (categoryMap transactions)

theorem sum_percentages_entries (transactions : List Transaction)
    (hpos : 0 < totalExpensesCat transactions) :
    ((categoryEntries transactions).map CategorySpending.percentage).sum = 100 := by
  have hT : totalExpensesCat transactions ≠ 0 := ne_of_gt hpos
  have h1 : ((categoryEntries transactions).map CategorySpending.percentage)
      = (categoryMap transactions).map
          (fun e => e.2.1 / totalExpensesCat transactions * 100) := by
    rw [map_percentage_categoryEntries]
    apply List.map_congr_left
    intro e _
    simp [hpos]
  rw [h1]
  have h2 : (categoryMap transactions).map
        (fun e => e.2.1 / totalExpensesCat transactions * 100)
      = (categoryMap transactions).map
        (fun e => (fun e : String × ℚ × Nat => e.2.1) e * (100 / totalExpensesCat transactions)) := by
    apply List.map_congr_left
    intro e _
    field_simp
  rw [h2, List.sum_map_mul_right, ← totalExpensesCat_eq_sum_values]
  field_simp

theorem C2_category_counterexample :
    0 < totalExpensesCat demo8
      ∧ ((processCategoryData demo8).map CategorySpending.percentage).sum ≠ 100 := by
  constructor <;>
    norm_num +decide [demo8, demoTx, processCategoryData, categoryEntries, categoryMap,
      totalExpensesCat, buildMap, updMap, categoryName, chartColors, catDescLe,
      List.insertionSort, List.orderedInsert, List.enum, List.enumFrom]

/-- The claim C2, amended: the truncation to the top seven groups is
applied after the percentages are computed, so the produced percentages
sum to 100 only when the grouping yields at most seven categories (then
the sum is exactly 100 whenever the total expense is positive); when the
total expense is zero every produced percentage is zero; and the code's
total agrees with the plain sum of expense amounts. -/
theorem C2_category_amended (transactions : List Transaction) :
    totalExpensesCat transactions = sumAmounts TxKind.expense transactions
      ∧ ((categoryMap transactions).length ≤ 7 →
          0 < totalExpensesCat transactions →
          ((processCategoryData transactions).map CategorySpending.percentage).sum = 100)
      ∧ (∀ e ∈ processCategoryData transactions,
          totalExpensesCat transactions = 0 → e.percentage = 0) := by
  refine ⟨totalExpensesCat_eq transactions, ?_, ?_⟩
  · intro hlen hpos
    have hlen' : (List.insertionSort catDescLe (categoryEntries transactions)).length ≤ 7 := by
      rw [List.length_insertionSort, categoryEntries_length]
      exact hlen
    rw [processCategoryData, List.take_of_length_le hlen']
    calc ((List.insertionSort catDescLe (categoryEntries transactions)).map
            CategorySpending.percentage).sum
        = ((categoryEntries transactions).map CategorySpending.percentage).sum :=
          ((List.perm_insertionSort catDescLe (categoryEntries transactions)).map
            CategorySpending.percentage).sum_eq
      _ = 100 := sum_percentages_entries transactions hpos
  · intro e he hzero
    have h1 : e ∈ List.insertionSort catDescLe (categoryEntries transactions) :=
      (List.take_sublist _ _).subset he
    have h2 : e ∈ categoryEntries transactions :=
      (List.perm_insertionSort catDescLe (categoryEntries transactions)).subset h1
    simp only [categoryEntries, List.mem_map] at h2
    obtain ⟨p, _, rfl⟩ := h2
    simp [hzero]

theorem C2_category_amended_witness :
    ((processCategoryData exampleFood).map CategorySpending.percentage).sum = 100 :=
  (C2_category_amended exampleFood).2.1
    (by norm_num +decide [exampleFood, categoryMap, buildMap, updMap, categoryName])
    (by norm_num +decide [exampleFood, totalExpensesCat, categoryMap, buildMap, updMap,
      categoryName])

/-- The claim C6: the savings rate is `(income - expense) / income * 100`
when the income total is positive and `0` when the income total is zero,
for every period selection. -/
theorem C6_savingsRate (p : TimePeriod) (transactions : List Transaction) :
    (0 < sumAmounts TxKind.income transactions →
        (calculateTotalStats p transactions).savingsRate
          = (sumAmounts TxKind.income transactions - sumAmounts TxKind.expense transactions)
              / sumAmounts TxKind.income transactions * 100)
      ∧ (sumAmounts TxKind.income transactions = 0 →
          (calculateTotalStats p transactions).savingsRate = 0) := by
  constructor
  · intro h
    simp only [calculateTotalStats, totalIncomeOf_eq, totalExpensesOf_eq]
    rw [if_pos h]
  · intro h
    simp only [calculateTotalStats, totalIncomeOf_eq, totalExpensesOf_eq, h]
    norm_num

/-- Witness for C6: the positive branch at the Food example (rate 50),
the zero branch at the all-expense demo list. -/
theorem C6_savingsRate_witness :
    (calculateTotalStats TimePeriod.d30 exampleFood).savingsRate
        = (sumAmounts TxKind.income exampleFood - sumAmounts TxKind.expense exampleFood)
            / sumAmounts TxKind.income exampleFood * 100
      ∧ (calculateTotalStats TimePeriod.d30 demo8).savingsRate = 0 :=
  ⟨(C6_savingsRate TimePeriod.d30 exampleFood).1
      (by norm_num +decide [sumAmounts, exampleFood]),
   (C6_savingsRate TimePeriod.d30 demo8).2
      (by norm_num +decide [sumAmounts, demo8, demoTx])⟩

theorem categoryName_ne_empty (t : Transaction) : categoryName t ≠ "" := by
  cases hc : t.categories with
  | none =>
    rw [categoryName, hc]
    decide
  | some n =>
    rw [categoryName, hc]
    show (if n = "" then "Uncategorized" else n) ≠ ""
    by_cases h : n = ""
    · rw [if_pos h]
      decide
    · rw [if_neg h]
      exact h

theorem statsCategoryMap_key_ne_empty {transactions : List Transaction}
    {e : String × ℚ} (he : e ∈ statsCategoryMap transactions) : e.1 ≠ "" := by
  obtain ⟨t, _, hk⟩ := key_mem_of_mem_buildMap
    (show (e.1, e.2) ∈ statsCategoryMap transactions from he)
  rw [← hk]
  exact categoryName_ne_empty t

theorem statsCategoryMap_value {transactions : List Transaction} {e : String × ℚ}
    (he : e ∈ statsCategoryMap transactions) :
    e.2 = ((transactions.filter (fun t =>
        t.type = TxKind.expense ∧ categoryName t = e.1)).map Transaction.amount).sum := by
  have h := value_buildMap (show (e.1, e.2) ∈ statsCategoryMap transactions from he)
  rw [foldl_add_amount'] at h
  rw [h, List.filter_filter]
  simp only [zero_add]
  congr 1
  congr 1
  apply List.filter_congr
  intro t _
  by_cases h1 : categoryName t = e.1 <;> by_cases h2 : t.type = TxKind.expense <;>
    simp [h1, h2]

theorem statsCategoryMap_ne_nil {transactions : List Transaction}
    (h : transactions.filter (fun t => t.type = TxKind.expense) ≠ []) :
    statsCategoryMap transactions ≠ [] := by
  obtain ⟨t, ht⟩ := List.exists_mem_of_ne_nil _ h
  intro hnil
  have : categoryName t ∈ (statsCategoryMap transactions).map Prod.fst :=
    (mem_keys_buildMap _ _ _ _ _).mpr ⟨t, ht, rfl⟩
  rw [hnil] at this
  simp at this

theorem head_statSort (l : List (String × ℚ)) (h : l ≠ []) :
    ∃ pre e suf, l = pre ++ e :: suf
      ∧ (List.insertionSort statDescLe l).head? = some e
      ∧ (∀ p ∈ pre, p.2 < e.2) ∧ (∀ s ∈ suf, s.2 ≤ e.2) := by
  induction l with
  | nil => exact absurd rfl h
  | cons x xs ih =>
    rcases eq_or_ne xs [] with rfl | hxs
    · exact ⟨[], x, [], rfl, by simp [List.insertionSort, List.orderedInsert],
        by simp, by simp⟩
    · obtain ⟨pre, e, suf, hdecomp, hhead, hpre, hsuf⟩ := ih hxs
      obtain ⟨rest, hrest⟩ : ∃ rest, List.insertionSort statDescLe xs = e :: rest := by
        cases hs : List.insertionSort statDescLe xs with
        | nil =>
          rw [hs] at hhead
          simp at hhead
        | cons y ys =>
          rw [hs] at hhead
          simp only [List.head?_cons, Option.some.injEq] at hhead
          exact ⟨ys, by rw [hhead]⟩
      by_cases hc : statDescLe x e
      · refine ⟨[], x, xs, rfl, ?_, by simp, ?_⟩
        · simp [List.insertionSort, hrest, List.orderedInsert, hc]
        · intro s hs
          rw [hdecomp] at hs
          rcases List.mem_append.mp hs with hs | hs
          · exact le_trans (le_of_lt (hpre s hs)) hc
          · rcases List.mem_cons.mp hs with rfl | hs
            · exact hc
            · exact le_trans (hsuf s hs) hc
      · refine ⟨x :: pre, e, suf, by rw [hdecomp]; rfl, ?_, ?_, hsuf⟩
        · simp [List.insertionSort, hrest, List.orderedInsert, hc]
        · intro p hp
          rcases List.mem_cons.mp hp with rfl | hp
          · exact lt_of_not_le hc
          · exact hpre p hp

/-- The claim C7: the top category is "None" exactly when there are no
expense transactions; otherwise it is a category whose summed expense
amount strictly exceeds every earlier-encountered group and is at least
every later-encountered group (first-encountered tie-breaking); group
values are the per-category expense sums, with missing categories counted
under "Uncategorized". -/
theorem C7_topCategory (p : TimePeriod) (transactions : List Transaction) :
    (transactions.filter (fun t => t.type = TxKind.expense) = [] →
        (calculateTotalStats p transactions).topCategory = "None")
      ∧ (transactions.filter (fun t => t.type = TxKind.expense) ≠ [] →
          ∃ pre amt suf,
            statsCategoryMap transactions
                = pre ++ ((calculateTotalStats p transactions).topCategory, amt) :: suf
              ∧ (∀ e ∈ pre, e.2 < amt) ∧ (∀ e ∈ suf, e.2 ≤ amt))
      ∧ (∀ e ∈ statsCategoryMap transactions,
          e.2 = ((transactions.filter (fun t =>
              t.type = TxKind.expense ∧ categoryName t = e.1)).map Transaction.amount).sum)
      ∧ (∀ t ∈ transactions, t.categories = none → categoryName t = "Uncategorized") := by
  refine ⟨?_, ?_, fun e he => statsCategoryMap_value he, ?_⟩
  · intro h
    have hnil : statsCategoryMap transactions = [] := by
      rw [statsCategoryMap, h]
      rfl
    simp [calculateTotalStats, topCategoryOf, hnil, List.insertionSort]
  · intro h
    obtain ⟨pre, e, suf, hdecomp, hhead, hpre, hsuf⟩ :=
      head_statSort (statsCategoryMap transactions) (statsCategoryMap_ne_nil h)
    have hmem : e ∈ statsCategoryMap transactions := by
      rw [hdecomp]
      exact List.mem_append.mpr (Or.inr (List.mem_cons_self _ _))
    have hne : e.1 ≠ "" := statsCategoryMap_key_ne_empty hmem
    have htop : (calculateTotalStats p transactions).topCategory = e.1 := by
      simp only [calculateTotalStats, topCategoryOf]
      cases hs : List.insertionSort statDescLe (statsCategoryMap transactions) with
      | nil =>
        rw [hs] at hhead
        simp at hhead
      | cons y ys =>
        rw [hs] at hhead
        simp only [List.head?_cons, Option.some.injEq] at hhead
        rw [hhead]
        show (if e.1 = "" then "None" else e.1) = e.1
        rw [if_neg hne]
    exact ⟨pre, e.2, suf, by rw [htop, hdecomp], hpre, hsuf⟩
  · intro t _ hnone
    rw [categoryName, hnone]

/-- Witness for C7: a "None" instance on an income-only list and a
decomposition instance on the Food example. -/
theorem C7_topCategory_witness :
    (calculateTotalStats TimePeriod.all
        [{ id := "1", amount := 1000, type := TxKind.income, date := ⟨2024, 1, 1⟩,
           description := "salary", categories := some "Salary",
           subcategories := none }]).topCategory = "None"
      ∧ ∃ pre amt suf,
          statsCategoryMap exampleFood
              = pre ++ ((calculateTotalStats TimePeriod.all exampleFood).topCategory,
                  amt) :: suf
            ∧ (∀ e ∈ pre, e.2 < amt) ∧ (∀ e ∈ suf, e.2 ≤ amt) :=
  ⟨(C7_topCategory TimePeriod.all _).1 (by norm_num +decide),
   (C7_topCategory TimePeriod.all exampleFood).2.1
      (by norm_num +decide [exampleFood])⟩

/-- The claim C8: a submission whose amount fails to parse or parses
non-positive, or which lacks a category, or whose description trims to
empty, is rejected with an alert message and issues no remote call. -/
theorem C8_validation (f : FormData)
    (h : parseFloat f.amount = none
        ∨ (∃ a, parseFloat f.amount = some a ∧ a ≤ 0)
        ∨ f.selectedCategory = ""
        ∨ jsTrim f.description = "") :
    (∃ msg, validateForm f = some msg) ∧ handleSubmit f = none := by
  have hsome : ∀ a : ℚ, parseFloat f.amount = some a →
      validateForm f
        = (if a ≤ 0 then some "Amount must be greater than 0"
          else if f.selectedCategory = "" then some "Please select a category"
          else if jsTrim f.description = "" then some "Please enter a description"
          else none) := by
    intro a hp
    rw [validateForm, hp]
  have hv : ∃ msg, validateForm f = some msg := by
    cases hp : parseFloat f.amount with
    | none => exact ⟨"Please enter a valid amount", by rw [validateForm, hp]⟩
    | some a =>
      by_cases ha : a ≤ 0
      · exact ⟨"Amount must be greater than 0",
          by rw [hsome a hp, if_pos ha]⟩
      · by_cases hc : f.selectedCategory = ""
        · exact ⟨"Please select a category",
            by rw [hsome a hp, if_neg ha, if_pos hc]⟩
        · have hd : jsTrim f.description = "" := by
            rcases h with h | ⟨a', ha', hle⟩ | h | h
            · rw [hp] at h
              cases h
            · rw [hp] at ha'
              injection ha' with he
              subst he
              exact absurd hle ha
            · exact absurd h hc
            · exact h
          exact ⟨"Please enter a description",
            by rw [hsome a hp, if_neg ha, if_neg hc, if_pos hd]⟩
  refine ⟨hv, ?_⟩
  obtain ⟨msg, hm⟩ := hv
  rw [handleSubmit, hm]

theorem parseFloat_neg5 : parseFloat "-5" = some (-5) := by
  have hd5 : digitsVal ['5'] = 5 := by decide
  have hd0 : digitsVal ([] : List Char) = 0 := by decide
  norm_num +decide [parseFloat, parseSign, hd5, hd0]

theorem C8_validation_witness :
    (∃ msg, validateForm demoForm = some msg) ∧ handleSubmit demoForm = none :=
  C8_validation demoForm
    (Or.inr (Or.inl ⟨-5, by rw [show demoForm.amount = "-5" from rfl, parseFloat_neg5],
      by norm_num⟩))

/-- The claim C10: a submission that passes validation carries the
trimmed description, and its `subcategory_id` is `null` (not the empty
string) exactly when no subcategory is selected. -/
theorem C10_payload (f : FormData) (r : Request) (hr : handleSubmit f = some r) :
    (Request.payload r).description = jsTrim f.description
      ∧ (Request.payload r).subcategory_id
          = (if f.selectedSubcategory = "" then none else some f.selectedSubcategory)
      ∧ (f.selectedSubcategory = "" → (Request.payload r).subcategory_id = none)
      ∧ (Request.payload r).subcategory_id ≠ some "" := by
  rw [handleSubmit] at hr
  cases hv : validateForm f with
  | some msg =>
    rw [hv] at hr
    cases hr
  | none =>
    rw [hv] at hr
    injection hr with hr
    subst hr
    have hpayload : ∀ d : TransactionData,
        Request.payload (if f.isEditMode then Request.update f.transactionId d
          else Request.insert d) = d := by
      intro d
      by_cases he : f.isEditMode <;> simp [he, Request.payload]
    rw [hpayload]
    refine ⟨rfl, rfl, fun hs => by rw [if_pos hs], ?_⟩
    by_cases hs : f.selectedSubcategory = ""
    · rw [if_pos hs]
      simp
    · rw [if_neg hs]
      exact fun he => hs (Option.some.inj he)

theorem C10_payload_witness :
    ∃ r, handleSubmit { demoForm with amount := "5" } = some r
      ∧ (Request.payload r).subcategory_id = none := by
  have hsub : handleSubmit { demoForm with amount := "5" }
      = some (Request.insert
          { amount := 5
            description := "lunch"
            type := TxKind.expense
            date := ⟨2024, 1, 1⟩
            category_id := "cat1"
            subcategory_id := none }) := by
    have hd5 : digitsVal ['5'] = 5 := by decide
    have hd0 : digitsVal ([] : List Char) = 0 := by decide
    norm_num +decide [handleSubmit, validateForm, demoForm, parseFloat, parseSign,
      hd5, hd0, jsTrim]
  exact ⟨_, hsub, ((C10_payload _ _ hsub).2.2.1 rfl)⟩

/-- The claim C9: a confirmed delete always issues the remote delete for
the chosen id; on remote error the local list is unchanged (the row stays
present); on success exactly the rows with a different id remain — so a
row with the deleted id is removed if and only if the remote call
succeeded. -/
theorem C9_delete (transactions : List Transaction) (id : String) (remoteError : Bool) :
    (deleteTransaction transactions id remoteError).requestedId = id
      ∧ (remoteError = true →
          (deleteTransaction transactions id remoteError).newList = transactions)
      ∧ (remoteError = false →
          ∀ t, t ∈ (deleteTransaction transactions id remoteError).newList
            ↔ (t ∈ transactions ∧ t.id ≠ id))
      ∧ (∀ t ∈ transactions, t.id = id →
          (t ∈ (deleteTransaction transactions id remoteError).newList
            ↔ remoteError = true)) := by
  refine ⟨rfl, ?_, ?_, ?_⟩
  · intro h
    simp [deleteTransaction, h]
  · intro h t
    simp [deleteTransaction, h, List.mem_filter]
  · intro t ht hid
    cases remoteError with
    | true => simp [deleteTransaction, ht]
    | false => simp [deleteTransaction, List.mem_filter, hid]

/-- Witness for C9: a rejected remote delete leaves the single-element
list unchanged, a successful one empties it. -/
theorem C9_delete_witness :
    (deleteTransaction [demoTx 1 "C1"] "C1" true).newList = [demoTx 1 "C1"]
      ∧ (demoTx 1 "C1" ∈ (deleteTransaction [demoTx 1 "C1"] "C1" false).newList ↔ False) :=
  ⟨(C9_delete [demoTx 1 "C1"] "C1" true).2.1 rfl,
   by
    rw [(C9_delete [demoTx 1 "C1"] "C1" false).2.2.2 (demoTx 1 "C1")
      (List.mem_singleton.mpr rfl) rfl]
    simp⟩

theorem reachable_staleState : Reachable staleState := by
  have h1 : Reachable (formStep initState (.setCategory "A" [subA])) :=
    Reachable.step Reachable.init (by
      show ∀ sub ∈ [subA], sub.category_id = "A"
      simp [subA])
  have h2 : Reachable (formStep (formStep initState (.setCategory "A" [subA]))
      (.setSubcategory "a1")) :=
    Reachable.step h1 (by
      show "a1" = "" ∨ ∃ sub ∈ (formStep initState
        (.setCategory "A" [subA])).subcategories, sub.id = "a1"
      right
      exact ⟨subA, by simp [formStep, initState], rfl⟩)
  have h3 : Reachable (formStep (formStep (formStep initState (.setCategory "A" [subA]))
      (.setSubcategory "a1")) (.setCategory "B" [subB])) :=
    Reachable.step h2 (by
      show ∀ sub ∈ [subB], sub.category_id = "B"
      simp [subB])
  have heq : formStep (formStep (formStep initState (.setCategory "A" [subA]))
      (.setSubcategory "a1")) (.setCategory "B" [subB]) = staleState := by decide
  rw [heq] at h3
  exact h3

/-- The claim C3 is false on the code: after selecting category "A" and
its subcategory "a1", switching to category "B" re-fetches the list but
leaves `selectedSubcategory = "a1"`, which belongs to no listed child of
"B" — a reachable state whose non-empty selected subcategory does not
belong to the currently selected category. -/
theorem C3_subcategory_counterexample :
    Reachable staleState
      ∧ staleState.selectedSubcategory ≠ ""
      ∧ ¬ ∃ sub ∈ staleState.subcategories,
          sub.id = staleState.selectedSubcategory
            ∧ sub.category_id = staleState.selectedCategory :=
  ⟨reachable_staleState, by decide, by decide⟩

theorem formStep_setCategory_keeps (st : SubcatState) (c : String)
    (fetched : List Subcategory) (hc : c ≠ "") :
    (formStep st (.setCategory c fetched)).selectedSubcategory
      = st.selectedSubcategory := by
  simp [formStep, hc]

/-- The claim C3, amended: in every reachable state the subcategory
*list* contains only children of the currently selected category, and an
empty selected category forces an empty list and an empty subcategory
selection; but switching to a different non-empty category retains the
previously selected subcategory id (the code never clears it on that
path), so it need not belong to the new category. -/
theorem C3_subcategory_amended (st : SubcatState) (h : Reachable st) :
    (st.selectedCategory = "" →
        st.subcategories = [] ∧ st.selectedSubcategory = "")
      ∧ (∀ sub ∈ st.subcategories, sub.category_id = st.selectedCategory)
      ∧ (∀ c fetched, c ≠ "" →
          (formStep st (.setCategory c fetched)).selectedSubcategory
            = st.selectedSubcategory) := by
  have hinv : (st.selectedCategory = "" →
        st.subcategories = [] ∧ st.selectedSubcategory = "")
      ∧ (∀ sub ∈ st.subcategories, sub.category_id = st.selectedCategory) := by
    induction h with
    | init => exact ⟨fun _ => ⟨rfl, rfl⟩, by simp [initState]⟩
    | step h he ih =>
      rename_i s e
      cases e with
      | setCategory c fetched =>
        have he' : ∀ sub ∈ fetched, sub.category_id = c := he
        by_cases hc : c = ""
        · subst hc
          simp [formStep]
        · rw [show formStep s (FormEvent.setCategory c fetched)
              = { s with selectedCategory := c, subcategories := fetched } from by
            simp [formStep, hc]]
          exact ⟨fun h' => absurd h' hc, fun sub hs => he' sub hs⟩
      | setSubcategory sid =>
        have he' : sid = "" ∨ ∃ sub ∈ s.subcategories, sub.id = sid := he
        refine ⟨?_, fun sub hs => ih.2 sub hs⟩
        intro h'
        have h'' : s.selectedCategory = "" := h'
        refine ⟨(ih.1 h'').1, ?_⟩
        show sid = ""
        rcases he' with he'' | ⟨sub, hsub, _⟩
        · exact he''
        · rw [(ih.1 h'').1] at hsub
          cases hsub
  exact ⟨hinv.1, hinv.2, fun c fetched hc => formStep_setCategory_keeps st c fetched hc⟩

/-- Witness for the amended C3, at the stale state itself: the list
contains only children of "B", while the retained selection "a1" is kept
by the category switch. -/
theorem C3_subcategory_amended_witness :
    (∀ sub ∈ staleState.subcategories, sub.category_id = staleState.selectedCategory)
      ∧ (formStep staleState (.setCategory "A" [subA])).selectedSubcategory
          = staleState.selectedSubcategory :=
  ⟨(C3_subcategory_amended staleState reachable_staleState).2.1,
   (C3_subcategory_amended staleState reachable_staleState).2.2 "A" [subA] (by decide)⟩

/-- Witness instantiating the monthly-series theorem at the Food example. -/
theorem C4_monthly_witness :
    (processMonthlyData exampleFood).length ≤ 6
      ∧ ∀ d ∈ processMonthlyData exampleFood, d.net = d.income - d.expense :=
  ⟨(C4_monthly exampleFood).1, (C4_monthly exampleFood).2.2.2.2.2.1⟩

/-- Witness instantiating the daily-series theorem at the Food example. -/
theorem C5_daily_witness :
    (processDailyData exampleFood).length ≤ 30
      ∧ ∀ d ∈ processDailyData exampleFood, d.amount = daySum d.date exampleFood :=
  ⟨(C5_daily exampleFood).1, (C5_daily exampleFood).2.2.2.1⟩

end ExpenseTracker
